import Mathlib

/-!
Verification of the `nntp` Go client library (`nntp.go`) against its
natural-language specification.

The source is shallowly embedded:
* wire lines are `List Char` (a line as delivered by `bufio`, including its
  trailing newline where the source reads it that way);
* machine integers are `Int` with explicit 64-bit range checks where the
  source's `strconv` parsers enforce them;
* stateful code (`Conn`) is explicit state passing;
* Go runtime panics reachable from the modelled code paths (index out of
  range, nil dereference) are a distinguished `crash`-style result, since they
  are observable program outcomes distinct from returned errors.
-/

set_option maxRecDepth 4096

namespace Nntp

/-! ### Basic character helpers -/

/-- Whitespace recognised by Go `strings.TrimSpace` (ASCII cases: space, tab,
newline, vertical tab, form feed, carriage return). -/
def isSpaceChar (c : Char) : Bool :=
  c == ' ' || c == '\t' || c == '\n' || c == Char.ofNat 11 || c == Char.ofNat 12 || c == '\r'

/-- Model of `strings.TrimSpace` on a list of characters. -/
def trimWS (l : List Char) : List Char :=
  ((l.dropWhile isSpaceChar).reverse.dropWhile isSpaceChar).reverse

/-- Space or horizontal tab, the characters skipped after a header colon and
recognised as continuation-line leaders in `readKeyValue`. -/
def isSpTab (c : Char) : Bool :=
  c == ' ' || c == '\t'

/-- Decimal digit value used by the `strconv` parsers. -/
def digitVal (c : Char) : Option Nat :=
  if c.isDigit then some (c.toNat - 48) else none

/-- Model of `strconv.ParseUint(line[0:3], 10, 0)` on the exactly-three-character status
code prefix: all three characters must be decimal digits. -/
def parseUint3 (l : List Char) : Option Nat :=
  match l with
  | [a, b, c] =>
    match digitVal a, digitVal b, digitVal c with
    | some x, some y, some z => some (100 * x + 10 * y + z)
    | _, _, _ => none
  | _ => none

/-- Go `strconv.Atoi` / `strconv.ParseInt(s, 10, 64)`: optional single sign,
then one or more decimal digits, with a signed 64-bit range check.
(`int` is 64 bits wide on the platforms this library targets.) -/
def goAtoi (s : String) : Option Int :=
  let p : Bool × List Char :=
    match s.data with
    | '+' :: t => (false, t)
    | '-' :: t => (true, t)
    | t => (false, t)
  let neg := p.1
  let ds := p.2
  if ds.isEmpty then none
  else if ds.all Char.isDigit then
    let n : Nat := ds.foldl (fun a c => 10 * a + (c.toNat - 48)) 0
    let v : Int := if neg then -(n : Int) else (n : Int)
    if -(2 ^ 63) ≤ v ∧ v ≤ 2 ^ 63 - 1 then some v else none
  else none

/-! ### CommandChannel: `Conn.cmd` (nntp.go lines 330-363)

The status-code matching convention (line 357-359):

    if 1 <= expectCode && expectCode < 10 && code/100 != expectCode ||
        10 <= expectCode && expectCode < 100 && code/10 != expectCode ||
        100 <= expectCode && expectCode < 1000 && code != expectCode {
        err = Error{code, line}
    }
-/

/-- The mismatch condition of `Conn.cmd`: `true` exactly when the status code
fails the caller's `expectCode` pattern and an `nntp.Error` is produced. -/
def expectMismatch (expectCode code : Nat) : Bool :=
  (decide (1 ≤ expectCode) && decide (expectCode < 10) && decide (code / 100 ≠ expectCode)) ||
  (decide (10 ≤ expectCode) && decide (expectCode < 100) && decide (code / 10 ≠ expectCode)) ||
  (decide (100 ≤ expectCode) && decide (expectCode < 1000) && decide (code ≠ expectCode))

/-- Errors a `Conn.cmd` call can return: `ProtocolError` values, the
status-mismatch `nntp.Error` (carrying the numeric code and the server text
after the code), and pass-through transport/IO failures. -/
inductive CmdError where
  | protocol (msg : String)
  | status (code : Nat) (text : List Char)
  | transport
  deriving DecidableEq

/-- Outcome of a `Conn.cmd` call.  `crashed` marks a Go runtime panic reached
while draining a pending body stream (see `processLine`). -/
inductive CmdRes where
  | ok (code : Nat) (text : List Char)
  | err (e : CmdError)
  | crashed
  deriving DecidableEq

/-- Final dispatch of `Conn.cmd` after a syntactically valid status line was
parsed into `code` and `text`: a mismatch yields `Error{code, line}`,
otherwise the code and text are returned with a nil error. -/
def finishStatus (expectCode code : Nat) (text : List Char) : CmdRes :=
  if expectMismatch expectCode code then .err (.status code text) else .ok code text

/-- Status-line parsing in `Conn.cmd` (lines 347-356): trim the line, require
length ≥ 4 with a space as 4th character, parse the first three characters as
an unsigned decimal code, and keep the text after the space. -/
def parseStatusLine (raw : List Char) : Except CmdError (Nat × List Char) :=
  let line := trimWS raw
  if line.length < 4 ∨ line.get? 3 ≠ some ' ' then
    .error (.protocol "short response")
  else
    match parseUint3 (line.take 3) with
    | none => .error (.protocol "invalid response code")
    | some code => .ok (code, line.drop 4)

/-! ### DotTerminatedReader: `bodyReader` (nntp.go lines 95-130) -/

/-- What `bodyReader.Read` does with one raw line obtained from
`ReadBytes('\n')`.  `crash` models the Go index-out-of-range panic of
`b[len(b)-2]` when the line is a bare newline (length < 2). -/
inductive LineOut where
  | emit (l : List Char)
  | terminator
  | crash
  deriving DecidableEq

/-- One line step of `bodyReader.Read`: canonicalize a trailing CRLF to LF,
stop on the line `".\n"`, and strip the first dot of a leading `".."`. -/
def processLine (b : List Char) : LineOut :=
  if b.length < 2 then .crash
  else
    let b2 := if b.get? (b.length - 2) = some '\r' then b.take (b.length - 2) ++ ['\n'] else b
    if b2 = ['.', '\n'] then .terminator
    else
      match b2 with
      | '.' :: '.' :: rest => .emit ('.' :: rest)
      | _ => .emit b2

/-- State of a `bodyReader`: its `eof` flag plus the wire lines still buffered
on the connection it reads from. -/
structure BodyReader where
  eof : Bool
  input : List (List Char)
  deriving DecidableEq

/-- Result of one `bodyReader.Read` call (line granularity: the read buffer
`p` is assumed large enough for one processed line, which is how the
surrounding code consumes the stream). -/
inductive ReadRes where
  | chunk (l : List Char)
  | eofData
  | ioErr
  | crash
  deriving DecidableEq

/-- One `bodyReader.Read` call: once `eof` is set every read reports
end-of-data; otherwise one line is read and processed. -/
def bodyRead : BodyReader → ReadRes × BodyReader
  | ⟨true, inp⟩ => (.eofData, ⟨true, inp⟩)
  | ⟨false, []⟩ => (.ioErr, ⟨false, []⟩)
  | ⟨false, b :: rest⟩ =>
    match processLine b with
    | .terminator => (.eofData, ⟨true, rest⟩)
    | .crash => (.crash, ⟨false, b :: rest⟩)
    | .emit e => (.chunk e, ⟨false, rest⟩)

/-- Decoding a whole dot-terminated block from a fresh `bodyReader`
(`eof = false`): the emitted lines up to, and not including, the terminator.
`none` when the input ends without a terminator or a line panics the
reader. -/
def decodeBody : List (List Char) → Option (List (List Char))
  | [] => none
  | b :: rest =>
    match processLine b with
    | .terminator => some []
    | .crash => none
    | .emit e => (decodeBody rest).map (e :: ·)

/-- Dot-stuffing on the sending side (`Conn.RawPost`, lines 889-893): a line
starting with `.` gets a second leading dot. -/
def dotStuff (l : List Char) : List Char :=
  if l.head? = some '.' then '.' :: l else l

/-- Framing a list of content lines (each without its newline) as a
dot-terminated block the way `Conn.RawPost` writes one: each line dot-stuffed
and CRLF-terminated, then the terminator line `.` (also CRLF-terminated). -/
def encodeBody (ls : List (List Char)) : List (List Char) :=
  ls.map (fun l => dotStuff l ++ ['\r', '\n']) ++ [['.', '\r', '\n']]

/-- Result of `bodyReader.discard` (`ioutil.ReadAll` on the reader): `okRem`
carries the lines left on the connection after the terminator.  A clean
underlying EOF is a successful drain (`io.EOF` ends `ReadAll` without error);
`fail` is a transport error surfaced mid-stream; `crashed` is the bare-newline
panic. -/
inductive DrainRes where
  | okRem (rem : List (List Char))
  | fail
  | crashed
  deriving DecidableEq

/-- Model of `bodyReader.discard`: read the stream to completion.  `eof` is the
reader's flag, `inp` the buffered lines, `ierr` whether the connection yields
a transport error (rather than a clean EOF) once `inp` is exhausted. -/
def drainBody (eof : Bool) (inp : List (List Char)) (ierr : Bool) : DrainRes :=
  match eof, inp with
  | true, rest => .okRem rest
  | false, [] => if ierr then .fail else .okRem []
  | false, b :: rest =>
    match processLine b with
    | .terminator => .okRem rest
    | .crash => .crashed
    | .emit _ => drainBody false rest ierr

/-! ### `Conn` state and `Conn.cmd` -/

/-- The slice of `Conn` state that `Conn.cmd` touches: the `close` flag, the
outstanding body reader (`br`, here just its `eof` flag since it shares the
connection's buffer), the buffered wire lines, whether the connection fails
with a transport error after those lines, and the trace of lines written to
the server. -/
structure CmdState where
  close : Bool
  br : Option Bool
  input : List (List Char)
  inputErr : Bool
  sent : List (List Char)
  deriving DecidableEq

/-- The send-and-read tail of `Conn.cmd` (lines 340-362), reached after the
close check and the drain of any outstanding body stream: write the command
line (CRLF-terminated), read one line, parse it as a status line, and apply
the `expectCode` check.  Writes are modelled as always succeeding; a failed
read returns the transport error. -/
def sendAndRead (expectCode : Nat) (command : List Char) (st : CmdState) :
    CmdRes × CmdState :=
  let st1 : CmdState := { st with sent := st.sent ++ [command ++ ['\r', '\n']] }
  match st1.input with
  | [] => (.err .transport, st1)
  | l :: rest =>
    let st2 : CmdState := { st1 with input := rest }
    match parseStatusLine l with
    | .error e => (.err e, st2)
    | .ok (code, text) => (finishStatus expectCode code text, st2)

/-- Model of `Conn.cmd` (lines 330-363): fail at once on a closed connection; otherwise
fully drain any outstanding body stream — returning the drain's failure
without sending anything — and only then send the command and read its status
line. -/
def cmd (expectCode : Nat) (command : List Char) (st : CmdState) :
    CmdRes × CmdState :=
  if st.close then (.err (.protocol "connection closed"), st)
  else
    match st.br with
    | none => sendAndRead expectCode command st
    | some eof =>
      match drainBody eof st.input st.inputErr with
      | .fail => (.err .transport, { st with input := [] })
      | .crashed => (.crashed, st)
      | .okRem rem => sendAndRead expectCode command { st with br := none, input := rem }

/-- Concrete status line used by the C7 witness. -/
def statusLineW : List Char := ['2', '0', '0', ' ', 'o', 'k', '\n']

/-- Concrete `Conn` state for the C7 witness: an outstanding body stream whose
terminator is the next buffered line, followed by the next status line. -/
def cmdStW : CmdState :=
  ⟨false, some false, [['.', '\r', '\n'], statusLineW], false, []⟩

/-! ### OverviewDecoder: `parseOverview` (nntp.go lines 529-600)

The decoder is modelled per input line, at the granularity the claims are
about.  `parseDate` is defined outside this file's source; its failure is
swallowed by `parseOverview` (the `Date` field is zeroed, nothing else
changes), so the record keeps the raw date field instead. -/

/-- Model of `strings.Split` on a single separator character (Go `strings.Split(s,
sep)` with a one-character separator). -/
def splitOnChar (sep : Char) : List Char → List (List Char)
  | [] => [[]]
  | c :: t =>
    let r := splitOnChar sep t
    if c == sep then [] :: r
    else
      match r with
      | h :: t2 => (c :: h) :: t2
      | [] => [[c]]

/-- Model of `strings.Split` on strings, single-character separator. -/
def goSplit (s : String) (sep : Char) : List String :=
  (splitOnChar sep s.data).map (fun l => String.mk l)

/-- Joining with a single-character separator (inverse of `goSplit`), used to
model the unsplit remainder that `strings.SplitN` keeps. -/
def joinWith (sep : Char) : List String → String
  | [] => ""
  | [s] => s
  | s :: t => s ++ String.mk [sep] ++ joinWith sep t

/-- Go `strings.SplitN(s, sep, n)` for a one-character separator and `n > 0`:
at most `n` pieces, the last one the unsplit remainder. -/
def goSplitN (s : String) (sep : Char) (n : Nat) : List String :=
  let parts := goSplit s sep
  if parts.length ≤ n then parts
  else parts.take (n - 1) ++ [joinWith sep (parts.drop (n - 1))]

/-- A decoded overview record (`MessageOverview`).  `dateRaw` keeps the
wire-date field (`ss[3]`); `parseOverview` never fails on it. -/
structure MessageOverview where
  messageNumber : Int
  subject : String
  sender : String
  dateRaw : String
  messageId : String
  references : List String
  bytes : Int
  lines : Int
  extra : List String
  deriving DecidableEq

/-- Per-line outcome of `parseOverview`.  `crash` models the Go runtime panic
`index out of range` (an `ss[i]` access past the end of the field slice),
which aborts the program rather than returning an error. -/
inductive OverviewResult where
  | ok (o : MessageOverview)
  | protoErr (msg : String)
  | crash
  deriving DecidableEq

/-- The quirk-gluing loop of `parseOverview` (lines 575-587), written on the
field list starting at the references field: while the total field count is
still ≥ 8 (i.e. at least two fields follow the references position) and the
presumed bytes field fails `strconv.Atoi`, concatenate it onto the references
field and drop it, then retry.  Returns the final references field, the
remaining following fields, and the parsed bytes value (0 when the loop ran
out of fields, matching Go's zero result from the failed `Atoi`). -/
def glueAux (a5 : String) (tail : List String) : String × List String × Int :=
  match tail with
  | a6 :: a7 :: rest =>
    match goAtoi a6 with
    | some v => (a5, a6 :: a7 :: rest, v)
    | none => glueAux (a5 ++ a6) (a7 :: rest)
  | _ => (a5, tail, 0)

/-- The gluing loop on the whole field slice, mirroring the in-place slice
surgery `ss[5] = ss[5]+ss[6]; ss = append(ss[:6], ss[7:]...)`: fields 0-4 are
untouched, the loop acts from index 5 on. -/
def glueLoop (ss : List String) : List String × Int :=
  match ss with
  | a0 :: a1 :: a2 :: a3 :: a4 :: a5 :: tail =>
    let g := glueAux a5 tail
    (a0 :: a1 :: a2 :: a3 :: a4 :: g.1 :: g.2.1, g.2.2)
  | _ => (ss, 0)

/-- One line of `parseOverview` after tab-splitting (lines 549-596): at least
8 fields, integer message number, glue loop, then the references split, the
lines field (empty means 0), and the extras.  When the glue loop has eaten
the field list down to 7 fields, the Go code's `ss[7]` access is out of
range: `crash`. -/
def parseOverviewFields (ss : List String) : OverviewResult :=
  if ss.length < 8 then .protoErr "short header listing line"
  else
    match goAtoi (ss.headD "") with
    | none => .protoErr "bad message number"
    | some num =>
      let g := glueLoop ss
      match g.1 with
      | _ :: a1 :: a2 :: a3 :: a4 :: a5 :: _ :: a7 :: rest =>
        let refs := goSplit a5 ' '
        if a7 = "" then
          .ok ⟨num, a1, a2, a3, a4, refs, g.2, 0, rest⟩
        else
          match goAtoi a7 with
          | some l => .ok ⟨num, a1, a2, a3, a4, refs, g.2, l, rest⟩
          | none => .protoErr "bad line count"
      | _ => .crash

/-- A full overview line: `strings.TrimSpace` then split on tabs (line 550). -/
def parseOverviewLine (line : String) : OverviewResult :=
  parseOverviewFields (goSplit (String.mk (trimWS line.data)) '\t')

/-- Plain concatenation of a list of strings (the gluing performed by
`ss[5] = ss[5] + ss[6]`, iterated). -/
def strConcat : List String → String
  | [] => ""
  | s :: t => s ++ strConcat t

/-! ### Group selection: `Conn.Group` / `parseGroupStatus` (nntp.go 687-718) -/

/-- Model of `nntp.Group`.  Field names match the Go struct. -/
structure Group where
  name : String := ""
  count : Int := 0
  high : Int := 0
  low : Int := 0
  status : String := ""
  deriving DecidableEq

/-- Model of `parseGroupStatus` (lines 700-718): `SplitN(line, " ", 4)`, require at
least 3 fields, parse the first three as signed 64-bit integers.  On every
error path the Go function returns a nil `*Group` together with a
`ProtocolError`; on success, `err` is nil.  `none` therefore models exactly
the nil-pointer-with-error outcome. -/
def parseGroupStatus (line : String) : Option Group :=
  let ss := goSplitN line ' ' 4
  if ss.length < 3 then none
  else
    match goAtoi (ss.getD 0 ""), goAtoi (ss.getD 1 ""), goAtoi (ss.getD 2 "") with
    | some c, some l, some h => some { count := c, low := l, high := h }
    | _, _, _ => none

/-- Outcome of the tail of `Conn.Group` (lines 693-697) once the `GROUP`
command has succeeded and produced the status line: on a `parseGroupStatus`
error the Go code executes `status.Name = group` on the nil pointer it was
just handed, a runtime panic (`nilDeref`), not a returned error. -/
inductive GroupRes where
  | ok (g : Group)
  | nilDeref
  deriving DecidableEq

/-- The post-command tail of `Conn.Group`.  The `group` argument is the
requested group name; note the success path returns the parsed status as-is
(its `name` is never populated), while the error path dereferences nil. -/
def groupFromLine (group : String) (line : String) : GroupRes :=
  match parseGroupStatus line with
  | some g => .ok g
  | none =>
    -- Go: `status.Name = group` with `status == nil`: panic.
    .nilDeref

/-! ### OverviewNegotiator: `Conn.Overview` (nntp.go lines 448-500)

The three command attempts and the downstream decoders are abstracted over a
per-call script of `Conn.cmd(224, …)` outcomes; everything `Overview` itself
decides — which commands are sent in which order, the two quirks flags, which
error reaches the caller, and the `[COMPRESS=GZIP]` pipeline choice — is
modelled exactly. -/

/-- The per-connection capability flags (`Conn.quirks`). -/
structure Quirks where
  xzverUnsupported : Bool
  xzverSupported : Bool
  deriving DecidableEq

/-- An error from a `Conn.cmd` attempt inside `Overview`: a status-mismatch
`nntp.Error`, a `ProtocolError`, or a transport failure. -/
inductive NErr where
  | status (code : Nat) (msg : String)
  | proto (msg : String)
  | transport
  deriving DecidableEq

/-- The commands `Overview` can send. -/
inductive OvCmd where
  | xzver
  | over
  | xover
  deriving DecidableEq

instance : DecidableEq (Except NErr String) := fun a b =>
  match a, b with
  | .ok x, .ok y => if h : x = y then .isTrue (by rw [h]) else .isFalse (by simp [h])
  | .error x, .error y => if h : x = y then .isTrue (by rw [h]) else .isFalse (by simp [h])
  | .ok _, .error _ => .isFalse (by simp)
  | .error _, .ok _ => .isFalse (by simp)

/-- Outcomes of the three `Conn.cmd(224, …)` attempts a single `Overview`
call can make (`.ok line` carries the status-line text). -/
structure CallScript where
  xzver : Except NErr String
  over : Except NErr String
  xover : Except NErr String
  deriving DecidableEq

/-- What the caller observes on success: the decode pipeline `Overview`
commits to.  `viaXzver` stands for `parseXzver`'s yEnc+DEFLATE decode,
`viaGzip`/`viaPlain` for the two branches of the `[COMPRESS=GZIP]` test on
the response line. -/
inductive OvOutcome where
  | viaXzver
  | viaGzip (line : String)
  | viaPlain (line : String)
  deriving DecidableEq

/-- Test whether the first list starts with the second as a prefix segment. -/
def hasPrefixL : List Char → List Char → Bool
  | _, [] => true
  | [], _ :: _ => false
  | c :: s, p :: ps => c == p && hasPrefixL s ps

/-- Model of `strings.Contains` on character lists. -/
def containsL : List Char → List Char → Bool
  | [], pat => pat.isEmpty
  | c :: t, pat => hasPrefixL (c :: t) pat || containsL t pat

/-- The `strings.Contains(line, "[COMPRESS=GZIP]")` test (line 477). -/
def hasGzipMarker (line : String) : Bool :=
  containsL line.data "[COMPRESS=GZIP]".data

/-- The error test of line 462: `err.(Error)` with `Code == 500` — the
"command not recognized" status that alone licenses the XOVER retry. -/
def isCmdUnrecognized : NErr → Bool
  | .status 500 _ => true
  | _ => false

/-- The OVER / XOVER part of `Overview` (lines 459-473): try OVER; only on an
`nntp.Error` with code 500 try XOVER, and if that also fails return the
*original* OVER error; any other OVER failure is returned at once.  Returns
the trace of commands sent and the line (or error) the rest of the pipeline
uses. -/
def overPath (s : CallScript) : List OvCmd × Except NErr String :=
  match s.over with
  | .ok line => ([.over], .ok line)
  | .error e =>
    if isCmdUnrecognized e then
      match s.xover with
      | .ok line => ([.over, .xover], .ok line)
      | .error _ => ([.over, .xover], .error e)
    else ([.over], .error e)

/-- Step 3 of `Overview` (lines 477-499): commit to the gzip pipeline when
the response line carries the marker, else the plain pipeline; errors pass
through. -/
def finishOv : Except NErr String → Except NErr OvOutcome
  | .error e => .error e
  | .ok line => .ok (if hasGzipMarker line then .viaGzip line else .viaPlain line)

/-- One `Conn.Overview` call (lines 448-500): if `!xzverUnsupported ||
xzverSupported`, attempt XZVER — success sets `xzverSupported` and returns
the XZVER decode; failure sets `xzverUnsupported` and falls through to the
OVER/XOVER path.  Returns the updated quirks, the trace of commands sent,
and the caller-visible outcome. -/
def overview (q : Quirks) (s : CallScript) :
    Quirks × List OvCmd × Except NErr OvOutcome :=
  if !q.xzverUnsupported || q.xzverSupported then
    match s.xzver with
    | .ok _ => ({ q with xzverSupported := true }, [.xzver], .ok .viaXzver)
    | .error _ =>
      let q2 : Quirks := { q with xzverUnsupported := true }
      let pr := overPath s
      (q2, .xzver :: pr.1, finishOv pr.2)
  else
    let pr := overPath s
    (q, pr.1, finishOv pr.2)

/-- A sequence of `Overview` calls on one session, threading the quirks
flags; returns the final flags and each call's command trace. -/
def runCalls (q : Quirks) : List CallScript → Quirks × List (List OvCmd)
  | [] => (q, [])
  | s :: rest =>
    let r := overview q s
    let t := runCalls r.1 rest
    (t.1, r.2.1 :: t.2)

/-- Script whose XZVER attempt succeeds (C5 counterexample, calls 1 and 3). -/
def scriptXzverOk : CallScript := ⟨.ok "ol", .ok "ol", .ok "ol"⟩

/-- Script whose XZVER attempt fails (C5 counterexample, call 2). -/
def scriptXzverFail : CallScript := ⟨.error .transport, .ok "ol", .ok "ol"⟩

/-- Script for the C6 witness: OVER fails with status 500, XOVER fails
too — the caller gets the original OVER error. -/
def scriptOver500 : CallScript :=
  ⟨.error .transport, .error (.status 500 "unknown"), .error (.status 500 "unknown")⟩

/-! ### HeaderParser: `readLineBytes`, `readKeyValue`, `Conn.readHeader`
(nntp.go lines 929-1046)

`readKeyValue`'s byte-level peeking loop is expressed as a line-at-a-time
state machine: the optional pending `(key, value-so-far)` pair plays the role
of the value being extended by continuation lines.  At the byte level, a
continuation is recognised exactly when the next line's first byte is a space
or tab (an empty line's first byte is its newline), so line granularity is
faithful. -/

/-- Characters `readLineBytes` chops off the end of a line: `'\r'`, `'\t'`,
`'\n'`. -/
def isChopChar (c : Char) : Bool :=
  c == '\r' || c == '\t' || c == '\n'

/-- The trailing-whitespace chop of `readLineBytes` (lines 940-946). -/
def chopTrail (l : List Char) : List Char :=
  (l.reverse.dropWhile isChopChar).reverse

/-- Valid token bytes of `http.CanonicalHeaderKey`: ASCII letters, digits, and
the token punctuation set. -/
def validHeaderFieldChar (c : Char) : Bool :=
  c.isAlphanum ||
    c.toNat ∈ [33, 35, 36, 37, 38, 39, 42, 43, 45, 46, 94, 95, 96, 124, 126]

/-- The case-folding pass of `http.CanonicalHeaderKey`: uppercase after a
start-of-key or a hyphen, lowercase otherwise. -/
def canonChars : Bool → List Char → List Char
  | _, [] => []
  | up, c :: t =>
    let c2 := if up then c.toUpper else c.toLower
    c2 :: canonChars (c2 == '-') t

/-- Model of `http.CanonicalHeaderKey`: canonicalize when every byte is a valid header
field byte, otherwise return the key unmodified. -/
def canonicalKey (s : String) : String :=
  if s.data.all validHeaderFieldChar then String.mk (canonChars true s.data) else s

/-- Association-list lookup for the header map (the Go map's key access). -/
def hdrLookup (key : String) : List (String × List String) → Option (List String)
  | [] => none
  | p :: t => if p.1 = key then some p.2 else hdrLookup key t

/-- The duplicate-key handling of `Conn.readHeader` (lines 1035-1042): append
the value to the existing entry's ordered list, else add a new entry.  The Go
`map[string][]string` is modelled as an insertion-ordered association list
(the map itself is unordered; the insertion order is what the code
performs). -/
def headerInsert (h : List (String × List String)) (key v : String) :
    List (String × List String) :=
  match hdrLookup key h with
  | some _ => h.map (fun p => if p.1 = key then (p.1, p.2 ++ [v]) else p)
  | none => h ++ [(key, [v])]

/-- Split at the first colon (`bytes.Index(line, colon)`): the key before it and the
rest after it; `none` when the line has no colon. -/
def splitAtColon : List Char → Option (List Char × List Char)
  | [] => none
  | c :: t =>
    if c == ':' then some ([], t)
    else
      match splitAtColon t with
      | some p => some (c :: p.1, p.2)
      | none => none

/-- First-line parsing of `readKeyValue` (lines 966-984): find the colon,
reject a key containing a space, skip spaces/tabs after the colon. -/
def parseKeyLine (line : List Char) : Option (List Char × List Char) :=
  match splitAtColon line with
  | none => none
  | some p =>
    if p.1.contains ' ' then none
    else some (p.1, p.2.dropWhile isSpTab)

/-- Continuation test: the line's first byte is a space or tab (line 988). -/
def isContLine (l : List Char) : Bool :=
  match l.head? with
  | some c => isSpTab c
  | none => false

/-- Processing of a fresh (non-continuation) line: after the readLineBytes
chop, an empty line ends the headers (`.ok none`); otherwise the line must
parse as `Key: value` or the whole parse fails with a malformed-header
error carrying the line. -/
def hdrFreshLine (l : List Char) : Except (List Char) (Option (List Char × List Char)) :=
  let line := chopTrail l
  if line.isEmpty then .ok none
  else
    match parseKeyLine line with
    | none => .error line
    | some kv => .ok (some kv)

/-- Insert a completed `(key, value)` pair: canonicalize the key, preserve
duplicate keys as additional value entries. -/
def insertPair (acc : List (String × List String)) (kv : List Char × List Char) :
    List (String × List String) :=
  headerInsert acc (canonicalKey (String.mk kv.1)) (String.mk kv.2)

/-- The `readHeader` loop over `readKeyValue` (lines 1024-1044), one input
line per step.  `cur` is the pair whose value may still be extended by
continuation lines; a continuation line contributes a single joining space
plus its content with leading spaces/tabs eaten and trailing `\r\t\n`
chopped (lines 996-1011). -/
def readHdrGo : List (List Char) → Option (List Char × List Char) →
    List (String × List String) → Except (List Char) (List (String × List String))
  | [], none, acc => .ok acc
  | [], some kv, acc => .ok (insertPair acc kv)
  | l :: rest, some kv, acc =>
    if isContLine l then
      readHdrGo rest (some (kv.1, kv.2 ++ ' ' :: chopTrail (l.dropWhile isSpTab))) acc
    else
      match hdrFreshLine l with
      | .error bad => .error bad
      | .ok none => .ok (insertPair acc kv)
      | .ok (some kv2) => readHdrGo rest (some kv2) (insertPair acc kv)
  | l :: rest, none, acc =>
    match hdrFreshLine l with
    | .error bad => .error bad
    | .ok none => .ok acc
    | .ok (some kv2) => readHdrGo rest (some kv2) acc

/-- Model of `Conn.readHeader` on a stream of raw lines (each without its trailing
newline). -/
def readHeader (ls : List (List Char)) :
    Except (List Char) (List (String × List String)) :=
  readHdrGo ls none []

/-- Wire encoding of one header entry: `Key: value` followed by its folded
continuation lines, each led by a single space. -/
def encodePair (p : String × String × List String) : List (List Char) :=
  (p.1.data ++ ':' :: ' ' :: p.2.1.data) :: p.2.2.map (fun c => ' ' :: c.data)

/-- Wire encoding of a header block: the entries' lines followed by the blank
line that terminates the headers. -/
def encodeHeader (ps : List (String × String × List String)) : List (List Char) :=
  (ps.map encodePair).flatten ++ [[]]

/-- The text a list of continuation lines adds to its value: one space per
line, then the line's content. -/
def contContrib (conts : List String) : List Char :=
  conts.foldr (fun c acc => ' ' :: c.data ++ acc) []

/-- A folded value after unfolding: the first-line value joined with each
continuation by a single space (RFC822 folding undone). -/
def unfoldValue (v : String) (conts : List String) : String :=
  String.mk (v.data ++ contContrib conts)

/-- The `(key, unfolded value)` pairs of a header block, in wire order. -/
def unfoldPairs (ps : List (String × String × List String)) : List (String × String) :=
  ps.map (fun p => (p.1, unfoldValue p.2.1 p.2.2))

/-- The header multi-map built from a pair sequence exactly as `readHeader`
inserts: canonicalized keys, duplicates appended in order. -/
def buildHeader (qs : List (String × String)) : List (String × List String) :=
  qs.foldl (fun h q => headerInsert h (canonicalKey q.1) q.2) []

/-- All values carried by occurrences of canonicalized key `key`, in wire
order. -/
def valuesFor (key : String) (qs : List (String × String)) : List String :=
  (qs.filter (fun q => decide (canonicalKey q.1 = key))).map Prod.snd

/-- Appending newly collected values to an optional existing value list:
`none` with nothing to add stays absent, otherwise the lists concatenate. -/
def optAppend (a : Option (List String)) (ws : List String) : Option (List String) :=
  match a, ws with
  | none, [] => none
  | none, ws => some ws
  | some vs, ws => some (vs ++ ws)

/-- First-seen-order deduplication of a key sequence. -/
def firstSeenAux (seen : List String) : List String → List String
  | [] => []
  | k :: t => if k ∈ seen then firstSeenAux seen t else k :: firstSeenAux (k :: seen) t

/-- A key is well formed for the round trip: non-empty, no space (the
parser's own requirement), no colon (so the first colon ends the key), no
newline (a line must be a single line), and not starting with a tab (so the
line is not mistaken for a continuation). -/
def wfKey (k : String) : Bool :=
  !k.data.isEmpty && !k.data.contains ' ' && !k.data.contains ':' &&
    !k.data.contains '\n' && !(k.data.headD 'k' == '\t')

/-- A value (or continuation-line content) is well formed for the round trip:
no newline, nothing the trailing chop would eat at its end, and no leading
space/tab (which the parser would eat). -/
def wfVal (v : String) : Bool :=
  !v.data.contains '\n' && chopTrail v.data == v.data &&
    !(v.data.headD 'v' == ' ') && !(v.data.headD 'v' == '\t')

/-- Well-formedness of a whole header block for the round trip. -/
def wfPairs (ps : List (String × String × List String)) : Bool :=
  ps.all (fun p => wfKey p.1 && wfVal p.2.1 && p.2.2.all wfVal)

/-- Concrete header block for the C8 witness: `received` and `Received`
canonicalize to the same key and must stay two separate entries. -/
def hdrExample : List (String × String × List String) :=
  [("subject", "Hi", []), ("received", "a", ["b"]), ("Received", "c", [])]

/-! ### Theorems: claims C1, C2, C7 -/

lemma expectMismatch_eq_false_iff (E C : Nat) :
    expectMismatch E C = false ↔
      ((1 ≤ E ∧ E < 10 → C / 100 = E) ∧ (10 ≤ E ∧ E < 100 → C / 10 = E) ∧
        (100 ≤ E ∧ E < 1000 → C = E)) := by
  simp only [expectMismatch, Bool.or_eq_false_iff, Bool.and_eq_false_iff,
    decide_eq_false_iff_not, not_not, not_le, not_lt]
  omega

lemma finishStatus_ok_iff (E C : Nat) (t : List Char) :
    finishStatus E C t = .ok C t ↔ expectMismatch E C = false := by
  unfold finishStatus
  split <;> simp_all

/-- Claim C1: `Conn.cmd` with expected-code spec `E` on a syntactically valid
status line with code `C` (0 ≤ C ≤ 999) succeeds iff: for 1 ≤ E ≤ 9, `C/100 =
E`; for 10 ≤ E ≤ 99, `C/10 = E`; for 100 ≤ E ≤ 999, `C = E`; for `E = 0`
every code is accepted.  On mismatch the result is the status error
`Error{code, line}` carrying the literal numeric code and the server text.
In particular spec 2 accepts exactly 200-299, spec 22 exactly 220-229 and
spec 211 only 211. -/
theorem claim1_expected_code_matching (E C : Nat) (t : List Char) (hC : C ≤ 999) :
    ((1 ≤ E ∧ E ≤ 9) → (finishStatus E C t = .ok C t ↔ C / 100 = E)) ∧
    ((10 ≤ E ∧ E ≤ 99) → (finishStatus E C t = .ok C t ↔ C / 10 = E)) ∧
    ((100 ≤ E ∧ E ≤ 999) → (finishStatus E C t = .ok C t ↔ C = E)) ∧
    (E = 0 → finishStatus E C t = .ok C t) ∧
    (expectMismatch E C = true → finishStatus E C t = .err (.status C t)) ∧
    (expectMismatch 2 C = false ↔ 200 ≤ C ∧ C ≤ 299) ∧
    (expectMismatch 22 C = false ↔ 220 ≤ C ∧ C ≤ 229) ∧
    (expectMismatch 211 C = false ↔ C = 211) := by
  refine ⟨?_, ?_, ?_, ?_, ?_, ?_, ?_, ?_⟩
  · intro hE
    rw [finishStatus_ok_iff, expectMismatch_eq_false_iff]
    omega
  · intro hE
    rw [finishStatus_ok_iff, expectMismatch_eq_false_iff]
    omega
  · intro hE
    rw [finishStatus_ok_iff, expectMismatch_eq_false_iff]
    omega
  · intro hE
    subst hE
    rw [finishStatus_ok_iff, expectMismatch_eq_false_iff]
    omega
  · intro h
    unfold finishStatus
    rw [h]
    simp
  · rw [expectMismatch_eq_false_iff]
    omega
  · rw [expectMismatch_eq_false_iff]
    omega
  · rw [expectMismatch_eq_false_iff]
    omega

/-- Witness for C1 at `E = 2`, `C = 205`. -/
theorem claim1_witness :
    (205 : Nat) ≤ 999 ∧ (expectMismatch 2 205 = false ↔ 200 ≤ 205 ∧ 205 ≤ 299) :=
  ⟨by decide, (claim1_expected_code_matching 2 205 [] (by decide)).2.2.2.2.2.1⟩

lemma processLine_encode (l : List Char) :
    processLine (dotStuff l ++ ['\r', '\n']) = .emit (l ++ ['\n']) := by
  unfold processLine
  rw [if_neg (by simp [List.length_append])]
  have hget : (dotStuff l ++ ['\r', '\n']).get? ((dotStuff l ++ ['\r', '\n']).length - 2) =
      some '\r' := by
    have h2 : (dotStuff l ++ ['\r', '\n']).length - 2 = (dotStuff l).length := by
      simp [List.length_append]
    rw [h2, List.get?_eq_getElem?, List.getElem?_append_right (Nat.le_refl _)]
    simp
  rw [if_pos hget]
  have htake : (dotStuff l ++ ['\r', '\n']).take ((dotStuff l ++ ['\r', '\n']).length - 2) =
      dotStuff l := by
    have : (dotStuff l ++ ['\r', '\n']).length - 2 = (dotStuff l).length := by
      simp [List.length_append]
    rw [this, List.take_left]
  rw [htake]
  unfold dotStuff
  cases l with
  | nil => simp
  | cons c t =>
    by_cases hc : c = '.'
    · subst hc
      simp
    · rw [if_neg (by simp [hc])]
      rw [if_neg (by intro h; cases h; exact hc rfl)]
      cases t with
      | nil =>
        simp only [List.cons_append, List.nil_append]
        split
        · rename_i heq
          injection heq with h1 h2
          exact absurd h1 hc
        · rfl
      | cons d t2 =>
        simp only [List.cons_append]
        split
        · rename_i heq
          injection heq with h1 h2
          exact absurd h1 hc
        · rfl

/-- Claim C2: framing byte content (a list of newline-free lines) as a
dot-terminated block the way `RawPost` writes one — dot-stuffing lines that
start with a dot, CRLF-terminating each line, appending the `.` terminator —
and decoding it with the `bodyReader` reproduces the content exactly: each
line comes back with its CRLF reduced to LF, the leading double dot reduced
to a single dot, the terminator is consumed but never emitted, and once the
terminator was seen (`eof` set) every further read reports end-of-data. -/
theorem claim2_dot_roundtrip (ls : List (List Char)) (hnl : ∀ l ∈ ls, '\n' ∉ l)
    (st : BodyReader) (heof : st.eof = true) :
    decodeBody (encodeBody ls) = some (ls.map (· ++ ['\n'])) ∧
    bodyRead st = (.eofData, st) := by
  constructor
  · clear hnl
    induction ls with
    | nil => rfl
    | cons l t ih =>
      have henc : encodeBody (l :: t) =
          (dotStuff l ++ ['\r', '\n']) :: encodeBody t := rfl
      rw [henc]
      simp only [decodeBody, processLine_encode, ih, Option.map_some', List.map_cons]
  · obtain ⟨e, inp⟩ := st
    simp only at heof
    subst heof
    rfl

/-- Witness for C2 on a three-line body (one line needing dot-stuffing, one
empty line) and an `eof`-state reader. -/
theorem claim2_witness :
    (∀ l ∈ [['a'], ['.', 'b'], ([] : List Char)], '\n' ∉ l) ∧
    (decodeBody (encodeBody [['a'], ['.', 'b'], []]) =
        some ([['a'], ['.', 'b'], []].map (· ++ ['\n'])) ∧
      bodyRead ⟨true, []⟩ = (.eofData, ⟨true, []⟩)) :=
  ⟨by decide, claim2_dot_roundtrip [['a'], ['.', 'b'], []] (by decide) ⟨true, []⟩ rfl⟩

/-- Claim C7: with an outstanding unread body stream (`br` set), `Conn.cmd`
first drains that stream through its terminator.  If the drain fails (which
happens once the buffered input is exhausted by a transport error), the
command call returns that failure with nothing sent — `sent` and `br` are
unchanged; if it succeeds, the command proceeds exactly as a command on the
drained state, so its status line is read from the input that follows the
old stream's terminator and no byte of the old stream can appear in the new
response. -/
theorem claim7_drain_before_command (E : Nat) (command : List Char) (st : CmdState)
    (eofFlag : Bool) (hclose : st.close = false) (hbr : st.br = some eofFlag) :
    (drainBody eofFlag st.input st.inputErr = .fail →
      cmd E command st = (.err .transport, { st with input := [] })) ∧
    (∀ rem, drainBody eofFlag st.input st.inputErr = .okRem rem →
      cmd E command st = sendAndRead E command { st with br := none, input := rem }) := by
  constructor
  · intro h
    simp [cmd, hclose, hbr, h]
  · intro rem h
    simp [cmd, hclose, hbr, h]

/-- Witness for C7: draining the outstanding stream consumes exactly the
terminator line, and the command then runs on the drained state. -/
theorem claim7_witness :
    (cmdStW.close = false ∧ cmdStW.br = some false) ∧
    cmd 0 ['X'] cmdStW =
      sendAndRead 0 ['X'] { cmdStW with br := none, input := [statusLineW] } :=
  ⟨⟨rfl, rfl⟩,
    (claim7_drain_before_command 0 ['X'] cmdStW false rfl rfl).2 [statusLineW] (by decide)⟩

/-! ### Theorems: claims C3, C10 (overview decoder) -/

lemma glueAux_glues (ps : List String) (p bstr : String) (follow : List String)
    (bv : Int) (hps : ∀ q ∈ ps, goAtoi q = none) (hb : goAtoi bstr = some bv)
    (hfollow : follow ≠ []) :
    glueAux p (ps ++ bstr :: follow) = (p ++ strConcat ps, bstr :: follow, bv) := by
  induction ps generalizing p with
  | nil =>
    obtain ⟨f, fr, rfl⟩ : ∃ f fr, follow = f :: fr := by
      cases follow with
      | nil => exact absurd rfl hfollow
      | cons f fr => exact ⟨f, fr, rfl⟩
    simp [glueAux, hb, strConcat]
  | cons q qs ih =>
    have hq : goAtoi q = none := hps q (by simp)
    obtain ⟨x, xs, hX⟩ : ∃ x xs, qs ++ bstr :: follow = x :: xs := by
      cases qs with
      | nil => exact ⟨bstr, follow, rfl⟩
      | cons a t => exact ⟨a, t ++ bstr :: follow, rfl⟩
    have step : glueAux p ((q :: qs) ++ bstr :: follow) =
        glueAux (p ++ q) (qs ++ bstr :: follow) := by
      rw [List.cons_append, hX]
      simp [glueAux, hq]
    rw [step, ih (p ++ q) (fun r hr => hps r (by simp [hr]))]
    rw [String.append_assoc]
    rfl

/-- Claim C3: on a field list with at least 8 tab-delimited fields where the
presumed bytes field fails integer parse because the references value was
split by unescaped tabs into pieces `p :: ps` (every piece after the first
non-numeric, the true bytes field numeric), `parseOverview` glues the pieces
back by literal concatenation without a delimiter and produces the record
with the correct bytes and lines values and the glued references string. -/
theorem claim3_reference_gluing (f0 f1 f2 f3 f4 p bstr lstr : String)
    (ps extra : List String) (n bv lv : Int)
    (hn : goAtoi f0 = some n)
    (hps : ∀ q ∈ ps, goAtoi q = none)
    (hb : goAtoi bstr = some bv)
    (hl : goAtoi lstr = some lv) :
    parseOverviewFields
        (f0 :: f1 :: f2 :: f3 :: f4 :: p :: (ps ++ bstr :: lstr :: extra)) =
      .ok ⟨n, f1, f2, f3, f4, goSplit (p ++ strConcat ps) ' ', bv, lv, extra⟩ := by
  have hlstr : lstr ≠ "" := by
    intro h
    rw [h] at hl
    simp [goAtoi] at hl
  have hglue := glueAux_glues ps p bstr (lstr :: extra) bv hps hb (by simp)
  have hlen : ¬ (f0 :: f1 :: f2 :: f3 :: f4 :: p ::
      (ps ++ bstr :: lstr :: extra)).length < 8 := by
    simp only [List.length_cons, List.length_append, not_lt]
    omega
  unfold parseOverviewFields
  rw [if_neg hlen]
  simp only [List.headD_cons, hn, glueLoop, hglue, hl]
  rw [if_neg hlstr]

/-- Witness for C3: a references value torn into two pieces by a stray tab is
re-glued and the record keeps the right bytes (300) and lines (7) values. -/
theorem claim3_witness :
    (∀ q ∈ ["<b>"], goAtoi q = none) ∧
    parseOverviewFields
        ("12" :: "subj" :: "from" :: "date" :: "<id>" :: "<a> " ::
          (["<b>"] ++ "300" :: "7" :: ["x"])) =
      .ok ⟨12, "subj", "from", "date", "<id>", goSplit ("<a> " ++ strConcat ["<b>"]) ' ',
        300, 7, ["x"]⟩ :=
  ⟨by decide,
    claim3_reference_gluing "12" "subj" "from" "date" "<id>" "<a> " "300" "7"
      ["<b>"] ["x"] 12 300 7 (by decide) (by decide) (by decide) (by decide)⟩

/-- Claim C10 (refuted — code bug): `parseOverview` is claimed never to
perform an out-of-range field access, yet on the 8-field line
`"1\ta\tb\tc\td\te\tf\tg"` (bytes field `"f"` non-numeric) the gluing loop
shrinks the field list to 7 entries, after which the Go code evaluates
`ss[7]` — an index out of range, i.e. a runtime panic, not a record or a
protocol error. -/
theorem claim10_out_of_range_crash :
    parseOverviewLine "1\ta\tb\tc\td\te\tf\tg" = .crash := by decide

/-! ### Theorems: claim C9 (group status) -/

/-- Claim C9 (refuted — code bug): on a malformed `GROUP` status line the
claim (and the spec) say `Conn.Group` still returns a partially populated
status carrying the requested name together with the error; the code instead
executes `status.Name = group` on the nil pointer `parseGroupStatus` returned
alongside its error — a nil dereference panic.  Both malformed shapes (a
non-integer leading field, fewer than 3 fields) crash. -/
theorem claim9_nil_deref_crash :
    parseGroupStatus "x 1 2 comment" = none ∧
    groupFromLine "misc.test" "x 1 2 comment" = .nilDeref ∧
    groupFromLine "misc.test" "12" = .nilDeref := by decide

/-! ### Theorems: claims C4, C5, C6 (overview negotiator) -/

/-- Claim C4: whenever the XZVER attempt of an `Overview` call fails (for any
reason), the failure is not what the caller observes: the call marks XZVER
proven-unsupported and continues with the OVER attempt, whose outcome (or its
XOVER fallback's) is the call's result. -/
theorem claim4_xzver_failure_not_propagated (q : Quirks) (s : CallScript) (e : NErr)
    (hq : (!q.xzverUnsupported || q.xzverSupported) = true)
    (hx : s.xzver = .error e) :
    (overview q s).1.xzverUnsupported = true ∧
    (overview q s).2.1 = .xzver :: (overPath s).1 ∧
    (overview q s).2.2 = finishOv (overPath s).2 := by
  simp [overview, hq, hx]

/-- Witness for C4: a fresh session whose XZVER attempt fails with a
transport error still reports the OVER path's outcome. -/
theorem claim4_witness :
    ((!(⟨false, false⟩ : Quirks).xzverUnsupported ||
        (⟨false, false⟩ : Quirks).xzverSupported) = true ∧
      scriptXzverFail.xzver = .error .transport) ∧
    ((overview ⟨false, false⟩ scriptXzverFail).1.xzverUnsupported = true ∧
      (overview ⟨false, false⟩ scriptXzverFail).2.1 =
        .xzver :: (overPath scriptXzverFail).1 ∧
      (overview ⟨false, false⟩ scriptXzverFail).2.2 =
        finishOv (overPath scriptXzverFail).2) :=
  ⟨⟨by decide, by decide⟩,
    claim4_xzver_failure_not_propagated ⟨false, false⟩ scriptXzverFail .transport
      (by decide) (by decide)⟩

/-- Claim C5 as stated is false on the code.  The XZVER guard is
`!xzverUnsupported || xzverSupported`, so on a session where XZVER has once
succeeded (`xzverSupported = true`), a later failed XZVER attempt does set
`xzverUnsupported` — yet the next `Overview` call still sends XZVER first,
not OVER.  Concrete run: call 1 XZVER succeeds, call 2 XZVER fails, call 3
nonetheless opens with XZVER. -/
theorem claim5_counterexample :
    scriptXzverFail.xzver = .error .transport ∧
    (overview (overview ⟨false, false⟩ scriptXzverOk).1 scriptXzverFail).2.1.head? =
      some .xzver ∧
    (overview
        (overview (overview ⟨false, false⟩ scriptXzverOk).1 scriptXzverFail).1
        scriptXzverOk).2.1.head? = some .xzver := by decide

lemma overPath_trace (s : CallScript) :
    (overPath s).1.head? = some .over ∧ OvCmd.xzver ∉ (overPath s).1 := by
  unfold overPath
  cases s.over with
  | ok line => simp
  | error e =>
    by_cases h : isCmdUnrecognized e = true
    · cases hx : s.xover <;> simp [h, hx]
    · simp [h]

lemma overview_settled (q : Quirks) (s : CallScript)
    (hu : q.xzverUnsupported = true) (hs : q.xzverSupported = false) :
    (overview q s).1 = q ∧ (overview q s).2.1 = (overPath s).1 := by
  have : (!q.xzverUnsupported || q.xzverSupported) = false := by
    rw [hu, hs]
    rfl
  simp [overview, this]

/-- Claim C5, amended: once an XZVER attempt has failed on a session on which
no XZVER attempt has ever succeeded (`xzverSupported` still false), no later
`Overview` call on that session sends XZVER again — every subsequent call's
first command is OVER — and the quirks flags never change again.  (As
literally stated the claim is false: after a successful XZVER the session
keeps retrying XZVER even once an attempt has failed, see
the counterexample.) -/
theorem claim5_no_xzver_after_failure (q : Quirks) (s : CallScript) (e : NErr)
    (hq : (!q.xzverUnsupported || q.xzverSupported) = true)
    (hs : q.xzverSupported = false)
    (hx : s.xzver = .error e) :
    (overview q s).1 = ⟨true, false⟩ ∧
    ∀ ss : List CallScript, ∀ tr ∈ (runCalls (⟨true, false⟩ : Quirks) ss).2,
      tr.head? = some .over ∧ OvCmd.xzver ∉ tr := by
  constructor
  · obtain ⟨u, v⟩ := q
    simp only at hs
    subst hs
    simp [overview, hq, hx]
  · intro ss
    induction ss with
    | nil => intro tr htr; simp [runCalls] at htr
    | cons s0 rest ih =>
      intro tr htr
      have hset := overview_settled ⟨true, false⟩ s0 rfl rfl
      simp only [runCalls, hset.1, List.mem_cons] at htr
      rcases htr with h | h
      · rw [h, hset.2]
        exact overPath_trace s0
      · exact ih tr h

/-- Witness for C5 (amended): a fresh session whose first XZVER attempt
fails never sends XZVER again; the next call opens with OVER. -/
theorem claim5_witness :
    ((!(⟨false, false⟩ : Quirks).xzverUnsupported ||
        (⟨false, false⟩ : Quirks).xzverSupported) = true ∧
      scriptXzverFail.xzver = .error .transport) ∧
    ((overview ⟨false, false⟩ scriptXzverFail).1 = ⟨true, false⟩ ∧
      ∀ tr ∈ (runCalls (⟨true, false⟩ : Quirks) [scriptXzverOk]).2,
        tr.head? = some .over ∧ OvCmd.xzver ∉ tr) :=
  ⟨⟨by decide, by decide⟩,
    let h := claim5_no_xzver_after_failure ⟨false, false⟩ scriptXzverFail .transport
      (by decide) (by decide) (by decide)
    ⟨h.1, h.2 [scriptXzverOk]⟩⟩

/-- Claim C6: in the OVER/XOVER pipeline, only an OVER failure that is an
`nntp.Error` with the "command not recognized" status 500 triggers the XOVER
retry (XOVER appears in the trace exactly then); any other OVER failure is
returned immediately with no retry; and when the XOVER retry itself fails,
the caller gets the original OVER error, not the XOVER error. -/
theorem claim6_fallback_policy (s : CallScript) (e : NErr)
    (ho : s.over = .error e) :
    (isCmdUnrecognized e = false → overPath s = ([.over], .error e)) ∧
    (isCmdUnrecognized e = true →
      (overPath s).1 = [.over, .xover] ∧
      (∀ e', s.xover = .error e' → (overPath s).2 = .error e) ∧
      (∀ line, s.xover = .ok line → (overPath s).2 = .ok line)) ∧
    (OvCmd.xover ∈ (overPath s).1 ↔ isCmdUnrecognized e = true) := by
  refine ⟨?_, ?_, ?_⟩
  · intro h
    simp [overPath, ho, h]
  · intro h
    refine ⟨?_, ?_, ?_⟩
    · cases hx : s.xover <;> simp [overPath, ho, h, hx]
    · intro e' hx
      simp [overPath, ho, h, hx]
    · intro line hx
      simp [overPath, ho, h, hx]
  · by_cases h : isCmdUnrecognized e = true
    · cases hx : s.xover <;> simp [overPath, ho, h, hx]
    · simp only [Bool.not_eq_true] at h
      simp [overPath, ho, h]

/-! ### Theorems: claim C8 (header parser) -/

lemma dropWhile_append_of_ne_nil {p : Char → Bool} {a : List Char} (b : List Char)
    (ha : a.dropWhile p = a) (hne : a ≠ []) : (a ++ b).dropWhile p = a ++ b := by
  cases a with
  | nil => exact absurd rfl hne
  | cons x xs =>
    have hx : p x = false := by
      by_contra hpx
      rw [Bool.not_eq_false] at hpx
      rw [List.dropWhile_cons, if_pos hpx] at ha
      have hlen := congrArg List.length ha
      have hle : (xs.dropWhile p).length ≤ xs.length :=
        List.Sublist.length_le (List.dropWhile_sublist p)
      simp at hlen
      omega
    simp [List.dropWhile_cons, hx]

lemma chopTrail_fix_reverse {l : List Char} (h : chopTrail l = l) :
    l.reverse.dropWhile isChopChar = l.reverse := by
  have h2 := congrArg List.reverse h
  unfold chopTrail at h2
  rwa [List.reverse_reverse] at h2

lemma wfVal_spec (v : String) (h : wfVal v = true) :
    chopTrail v.data = v.data ∧ v.data.dropWhile isSpTab = v.data := by
  unfold wfVal at h
  simp only [Bool.and_eq_true, Bool.not_eq_true'] at h
  have hchop : chopTrail v.data = v.data := eq_of_beq h.1.1.2
  refine ⟨hchop, ?_⟩
  cases hv : v.data with
  | nil => rfl
  | cons c t =>
    have hsp := h.1.2
    have htab := h.2
    rw [hv] at hsp htab
    simp only [List.headD_cons] at hsp htab
    simp [List.dropWhile_cons, isSpTab, hsp, htab]

lemma wfKey_spec (k : String) (h : wfKey k = true) :
    k.data ≠ [] ∧ k.data.contains ' ' = false ∧ k.data.contains ':' = false ∧
      (∀ c t, k.data = c :: t → isSpTab c = false) := by
  unfold wfKey at h
  simp only [Bool.and_eq_true, Bool.not_eq_true'] at h
  refine ⟨?_, h.1.1.1.2, h.1.1.2, ?_⟩
  · intro hnil
    rw [hnil] at h
    simp at h
  · intro c t hct
    have hsp := h.1.1.1.2
    have htab := h.2
    rw [hct] at hsp htab
    simp only [List.headD_cons] at htab
    have hc : (c == ' ') = false := by
      by_contra hcc
      rw [Bool.not_eq_false] at hcc
      have hce : c = ' ' := eq_of_beq hcc
      rw [hce] at hsp
      simp [List.contains_cons] at hsp
    simp [isSpTab, hc, htab]

lemma chopTrail_key_line (k v : List Char) (hv : chopTrail v = v) :
    chopTrail (k ++ ':' :: ' ' :: v) = k ++ ':' :: ' ' :: v := by
  have ha : (v.reverse ++ [' ', ':']).dropWhile isChopChar = v.reverse ++ [' ', ':'] := by
    cases hv2 : v.reverse with
    | nil => rfl
    | cons x xs =>
      rw [← hv2]
      refine dropWhile_append_of_ne_nil _ (chopTrail_fix_reverse hv) ?_
      rw [hv2]
      simp
  have h1 : (k ++ ':' :: ' ' :: v).reverse = (v.reverse ++ [' ', ':']) ++ k.reverse := by
    simp
  unfold chopTrail
  rw [h1, dropWhile_append_of_ne_nil _ ha (by simp), ← h1, List.reverse_reverse]

lemma splitAtColon_encode (k t : List Char) (hk : k.contains ':' = false) :
    splitAtColon (k ++ ':' :: t) = some (k, t) := by
  induction k with
  | nil => simp [splitAtColon]
  | cons c ks ih =>
    rw [List.contains_cons, Bool.or_eq_false_iff] at hk
    have hc : (c == ':') = false := by
      by_contra hcc
      rw [Bool.not_eq_false] at hcc
      have hce : c = ':' := eq_of_beq hcc
      subst hce
      simp at hk
    rw [List.cons_append]
    simp [splitAtColon, hc, ih hk.2]

lemma hdrFreshLine_encode (k v : String) (hk : wfKey k = true) (hv : wfVal v = true) :
    hdrFreshLine (k.data ++ ':' :: ' ' :: v.data) = .ok (some (k.data, v.data)) := by
  obtain ⟨hknil, hksp, hkcol, _⟩ := wfKey_spec k hk
  obtain ⟨hvchop, hvdrop⟩ := wfVal_spec v hv
  have hne : (k.data ++ ':' :: ' ' :: v.data).isEmpty = false := by
    cases hkd : k.data with
    | nil => exact absurd hkd hknil
    | cons c t => simp
  have hpk : parseKeyLine (k.data ++ ':' :: ' ' :: v.data) = some (k.data, v.data) := by
    unfold parseKeyLine
    rw [splitAtColon_encode _ _ hkcol]
    have hdrop : (' ' :: v.data).dropWhile isSpTab = v.data := by
      rw [List.dropWhile_cons]
      simp [isSpTab, hvdrop]
    have hksp' : ' ' ∉ k.data := by simpa using hksp
    simp [hksp', hdrop]
  unfold hdrFreshLine
  simp only [chopTrail_key_line _ _ hvchop, hne, Bool.false_eq_true, if_false, hpk]

lemma isContLine_key_line (k : String) (v : List Char) (hk : wfKey k = true) :
    isContLine (k.data ++ v) = false := by
  obtain ⟨hknil, _, _, hhead⟩ := wfKey_spec k hk
  cases hkd : k.data with
  | nil => exact absurd hkd hknil
  | cons c t =>
    rw [List.cons_append]
    simp only [isContLine, List.head?_cons]
    exact hhead c t hkd

lemma wfPairs_cons (k v : String) (conts : List String)
    (ps : List (String × String × List String)) :
    wfPairs ((k, v, conts) :: ps) = true ↔
      wfKey k = true ∧ wfVal v = true ∧ conts.all wfVal = true ∧ wfPairs ps = true := by
  simp only [wfPairs, List.all_cons, Bool.and_eq_true, and_assoc]

lemma readHdrGo_conts (conts : List String) (rest : List (List Char))
    (k v : List Char) (acc : List (String × List String))
    (hwf : conts.all wfVal = true) :
    readHdrGo (conts.map (fun c => ' ' :: c.data) ++ rest) (some (k, v)) acc =
      readHdrGo rest (some (k, v ++ contContrib conts)) acc := by
  induction conts generalizing v with
  | nil => simp [contContrib]
  | cons c cs ih =>
    rw [List.all_cons, Bool.and_eq_true] at hwf
    obtain ⟨hcchop, hcdrop⟩ := wfVal_spec c hwf.1
    rw [List.map_cons, List.cons_append]
    have hcont : isContLine (' ' :: c.data) = true := by
      simp [isContLine, isSpTab]
    have hstep : readHdrGo ((' ' :: c.data) :: (cs.map (fun c => ' ' :: c.data) ++ rest))
        (some (k, v)) acc =
        readHdrGo (cs.map (fun c => ' ' :: c.data) ++ rest)
          (some (k, v ++ ' ' :: c.data)) acc := by
      rw [readHdrGo, if_pos hcont]
      have hdw : (' ' :: c.data).dropWhile isSpTab = c.data := by
        rw [List.dropWhile_cons]
        simp [isSpTab, hcdrop]
      rw [hdw, hcchop]
    rw [hstep, ih (v ++ ' ' :: c.data) hwf.2]
    have hval : (v ++ ' ' :: c.data) ++ contContrib cs = v ++ contContrib (c :: cs) := by
      rw [show contContrib (c :: cs) = ' ' :: (c.data ++ contContrib cs) from rfl]
      simp
    rw [hval]

lemma readHdrGo_run : ∀ (ps : List (String × String × List String))
    (acc : List (String × List String)) (cur : Option (List Char × List Char)),
    wfPairs ps = true →
    readHdrGo ((ps.map encodePair).flatten ++ [[]]) cur acc =
      .ok (List.foldl (fun h q => headerInsert h (canonicalKey q.1) q.2)
        (match cur with
          | none => acc
          | some kv => insertPair acc kv) (unfoldPairs ps))
  | [], acc, cur, _ => by
    cases cur with
    | none => simp [readHdrGo, hdrFreshLine, chopTrail, unfoldPairs]
    | some kv => simp [readHdrGo, isContLine, hdrFreshLine, chopTrail, unfoldPairs]
  | ⟨k, v, conts⟩ :: ps', acc, cur, hwf => by
    rw [wfPairs_cons] at hwf
    obtain ⟨hk, hv, hconts, hps''⟩ := hwf
    have hfresh := hdrFreshLine_encode k v hk hv
    have hstream : (((⟨k, v, conts⟩ : String × String × List String) :: ps').map
          encodePair).flatten ++ [[]] =
        (k.data ++ ':' :: ' ' :: v.data) ::
          (conts.map (fun c => ' ' :: c.data) ++
            ((ps'.map encodePair).flatten ++ [[]])) := by
      simp [encodePair]
    have tailrun : ∀ acc0 : List (String × List String),
        readHdrGo (conts.map (fun c => ' ' :: c.data) ++
            ((ps'.map encodePair).flatten ++ [[]]))
          (some (k.data, v.data)) acc0 =
        .ok (List.foldl (fun h q => headerInsert h (canonicalKey q.1) q.2)
          (insertPair acc0 (k.data, v.data ++ contContrib conts)) (unfoldPairs ps')) := by
      intro acc0
      rw [readHdrGo_conts conts _ k.data v.data acc0 hconts]
      exact readHdrGo_run ps' acc0 (some (k.data, v.data ++ contContrib conts)) hps''
    have hinsert : ∀ acc0 : List (String × List String),
        insertPair acc0 (k.data, v.data ++ contContrib conts) =
          headerInsert acc0 (canonicalKey k) (unfoldValue v conts) := by
      intro acc0
      rfl
    cases cur with
    | none =>
      rw [hstream, readHdrGo, hfresh]
      show readHdrGo (conts.map (fun c => ' ' :: c.data) ++
          ((ps'.map encodePair).flatten ++ [[]])) (some (k.data, v.data)) acc = _
      rw [tailrun acc]
      simp only [unfoldPairs, List.map_cons, List.foldl_cons, hinsert]
    | some kv =>
      rw [hstream, readHdrGo,
        if_neg (by rw [isContLine_key_line k _ hk]; exact Bool.false_ne_true),
        hfresh]
      show readHdrGo (conts.map (fun c => ' ' :: c.data) ++
          ((ps'.map encodePair).flatten ++ [[]])) (some (k.data, v.data))
          (insertPair acc kv) = _
      rw [tailrun (insertPair acc kv)]
      simp only [unfoldPairs, List.map_cons, List.foldl_cons, hinsert]

lemma hdrLookup_map_update (h : List (String × List String)) (k v : String) :
    hdrLookup k (h.map (fun p => if p.1 = k then (p.1, p.2 ++ [v]) else p)) =
      (hdrLookup k h).map (· ++ [v]) := by
  induction h with
  | nil => rfl
  | cons x t ih =>
    by_cases hx : x.1 = k
    · simp [hdrLookup, hx, ih]
    · simp [hdrLookup, hx, ih]

lemma hdrLookup_append (k : String) (h₁ h₂ : List (String × List String)) :
    hdrLookup k (h₁ ++ h₂) =
      match hdrLookup k h₁ with
      | some vs => some vs
      | none => hdrLookup k h₂ := by
  induction h₁ with
  | nil => rfl
  | cons x t ih =>
    by_cases hx : x.1 = k
    · simp [hdrLookup, hx]
    · simp [hdrLookup, hx, ih]

lemma hdrLookup_insert_self (h : List (String × List String)) (k v : String) :
    hdrLookup k (headerInsert h k v) = some ((hdrLookup k h).getD [] ++ [v]) := by
  unfold headerInsert
  cases hl : hdrLookup k h with
  | some vs =>
    rw [hdrLookup_map_update, hl]
    rfl
  | none =>
    rw [hdrLookup_append, hl]
    simp [hdrLookup]

lemma hdrLookup_map_update_ne (h : List (String × List String)) (k k' v : String)
    (hne : k' ≠ k) :
    hdrLookup k' (h.map (fun p => if p.1 = k then (p.1, p.2 ++ [v]) else p)) =
      hdrLookup k' h := by
  induction h with
  | nil => rfl
  | cons x t ih =>
    by_cases hx : x.1 = k
    · have hx' : x.1 ≠ k' := by
        intro he
        apply hne
        rw [← he]
        exact hx
      simp only [List.map_cons, if_pos hx, hdrLookup, if_neg hx']
      exact ih
    · by_cases hx2 : x.1 = k'
      · simp only [List.map_cons, if_neg hx, hdrLookup, if_pos hx2]
      · simp only [List.map_cons, if_neg hx, hdrLookup, if_neg hx2]
        exact ih

lemma hdrLookup_insert_ne (h : List (String × List String)) (k k' v : String)
    (hne : k' ≠ k) :
    hdrLookup k' (headerInsert h k v) = hdrLookup k' h := by
  unfold headerInsert
  cases hl : hdrLookup k h with
  | some vs => exact hdrLookup_map_update_ne h k k' v hne
  | none =>
    rw [hdrLookup_append]
    cases hl' : hdrLookup k' h with
    | some vs => rfl
    | none =>
      have hone : hdrLookup k' [(k, [v])] = none := by
        have : k ≠ k' := fun he => hne he.symm
        simp [hdrLookup, this]
      simp [hone]

lemma hdrLookup_fold (qs : List (String × String)) (k : String) :
    ∀ acc, hdrLookup k
        (List.foldl (fun h q => headerInsert h (canonicalKey q.1) q.2) acc qs) =
      optAppend (hdrLookup k acc) (valuesFor k qs) := by
  induction qs with
  | nil =>
    intro acc
    cases hacc : hdrLookup k acc <;> simp [valuesFor, optAppend, hacc]
  | cons q qs' ih =>
    intro acc
    rw [List.foldl_cons, ih]
    by_cases hq : canonicalKey q.1 = k
    · rw [hq, hdrLookup_insert_self]
      have hval : valuesFor k (q :: qs') = q.2 :: valuesFor k qs' := by
        simp [valuesFor, List.filter_cons, hq]
      rw [hval]
      cases hacc : hdrLookup k acc with
      | none => cases hrest : valuesFor k qs' <;> simp [optAppend]
      | some vs => cases hrest : valuesFor k qs' <;> simp [optAppend]
    · rw [hdrLookup_insert_ne acc (canonicalKey q.1) k q.2 (fun he => hq he.symm)]
      have hval : valuesFor k (q :: qs') = valuesFor k qs' := by
        simp [valuesFor, List.filter_cons, hq]
      rw [hval]

lemma keys_headerInsert (h : List (String × List String)) (k v : String) :
    (headerInsert h k v).map Prod.fst =
      match hdrLookup k h with
      | some _ => h.map Prod.fst
      | none => h.map Prod.fst ++ [k] := by
  unfold headerInsert
  cases hl : hdrLookup k h with
  | some vs =>
    rw [List.map_map]
    refine List.map_congr_left ?_
    intro p _
    by_cases hp : p.1 = k <;> simp [hp]
  | none => simp

lemma hdrLookup_eq_none_iff (k : String) (h : List (String × List String)) :
    hdrLookup k h = none ↔ k ∉ h.map Prod.fst := by
  induction h with
  | nil => simp [hdrLookup]
  | cons x t ih =>
    by_cases hx : x.1 = k
    · simp [hdrLookup, hx]
    · have hx' : ¬ k = x.1 := fun he => hx he.symm
      simp [hdrLookup, hx, ih, hx']

lemma firstSeenAux_congr : ∀ (l : List String) (s1 s2 : List String),
    (∀ x, x ∈ s1 ↔ x ∈ s2) → firstSeenAux s1 l = firstSeenAux s2 l
  | [], _, _, _ => rfl
  | k :: t, s1, s2, h => by
    by_cases hk : k ∈ s1
    · rw [firstSeenAux, firstSeenAux, if_pos hk, if_pos ((h k).mp hk)]
      exact firstSeenAux_congr t s1 s2 h
    · rw [firstSeenAux, firstSeenAux, if_neg hk, if_neg (fun hh => hk ((h k).mpr hh))]
      refine congrArg (k :: ·) (firstSeenAux_congr t (k :: s1) (k :: s2) ?_)
      intro x
      simp [List.mem_cons, h x]

lemma keys_fold (qs : List (String × String)) :
    ∀ acc, (List.foldl (fun h q => headerInsert h (canonicalKey q.1) q.2) acc qs).map
        Prod.fst =
      acc.map Prod.fst ++
        firstSeenAux (acc.map Prod.fst) (qs.map (fun q => canonicalKey q.1)) := by
  induction qs with
  | nil =>
    intro acc
    simp [firstSeenAux]
  | cons q qs' ih =>
    intro acc
    rw [List.foldl_cons, ih, List.map_cons]
    cases hl : hdrLookup (canonicalKey q.1) acc with
    | some vs =>
      have hkeys : (headerInsert acc (canonicalKey q.1) q.2).map Prod.fst =
          acc.map Prod.fst := by
        rw [keys_headerInsert, hl]
      have hmem : canonicalKey q.1 ∈ acc.map Prod.fst := by
        by_contra hmem
        rw [← hdrLookup_eq_none_iff] at hmem
        rw [hmem] at hl
        cases hl
      rw [hkeys, firstSeenAux, if_pos hmem]
    | none =>
      have hkeys : (headerInsert acc (canonicalKey q.1) q.2).map Prod.fst =
          acc.map Prod.fst ++ [canonicalKey q.1] := by
        rw [keys_headerInsert, hl]
      have hmem : canonicalKey q.1 ∉ acc.map Prod.fst :=
        (hdrLookup_eq_none_iff _ _).mp hl
      rw [hkeys, firstSeenAux, if_neg hmem]
      rw [firstSeenAux_congr (qs'.map fun q => canonicalKey q.1)
        (acc.map Prod.fst ++ [canonicalKey q.1])
        (canonicalKey q.1 :: acc.map Prod.fst)
        (by intro x; simp [List.mem_append, List.mem_cons, or_comm])]
      simp

/-- Claim C8: parsing a well-formed header byte stream reproduces the
original `(key, values)` pairs: the encoding of a pair list parses to exactly
the multi-map built by inserting each pair's canonicalized key with its
unfolded value (continuation lines re-joined by single spaces) in wire order;
for every key, the stored value list is precisely the values of that key's
occurrences in wire order (each occurrence a separate entry, never merged);
and the map's keys are in first-seen order.  The Go `map[string][]string` is
modelled as an insertion-ordered association list. -/
theorem claim8_header_multimap (ps : List (String × String × List String))
    (hwf : wfPairs ps = true) :
    readHeader (encodeHeader ps) = .ok (buildHeader (unfoldPairs ps)) ∧
    (∀ key, hdrLookup key (buildHeader (unfoldPairs ps)) =
      if valuesFor key (unfoldPairs ps) = [] then none
      else some (valuesFor key (unfoldPairs ps))) ∧
    (buildHeader (unfoldPairs ps)).map Prod.fst =
      firstSeenAux [] ((unfoldPairs ps).map (fun q => canonicalKey q.1)) := by
  refine ⟨?_, ?_, ?_⟩
  · rw [readHeader, encodeHeader, readHdrGo_run ps [] none hwf]
    rfl
  · intro key
    rw [buildHeader, hdrLookup_fold (unfoldPairs ps) key []]
    cases hv : valuesFor key (unfoldPairs ps) with
    | nil => simp [hdrLookup, optAppend]
    | cons a t => simp [hdrLookup, optAppend]
  · rw [buildHeader, keys_fold (unfoldPairs ps) []]
    simp

/-- Witness for C8: `received` and `Received` canonicalize to the same key
and remain two separate value entries, in order. -/
theorem claim8_witness :
    wfPairs hdrExample = true ∧
    (readHeader (encodeHeader hdrExample) = .ok (buildHeader (unfoldPairs hdrExample)) ∧
      hdrLookup "Received" (buildHeader (unfoldPairs hdrExample)) =
        (if valuesFor "Received" (unfoldPairs hdrExample) = [] then none
         else some (valuesFor "Received" (unfoldPairs hdrExample))) ∧
      (buildHeader (unfoldPairs hdrExample)).map Prod.fst =
        firstSeenAux [] ((unfoldPairs hdrExample).map (fun q => canonicalKey q.1))) :=
  ⟨by decide,
    let h := claim8_header_multimap hdrExample (by decide)
    ⟨h.1, h.2.1 "Received", h.2.2⟩⟩

/-- Witness for C6 at the 500 branch with a failing XOVER. -/
theorem claim6_witness :
    scriptOver500.over = .error (.status 500 "unknown") ∧
    ((overPath scriptOver500).1 = [.over, .xover] ∧
      (overPath scriptOver500).2 = .error (.status 500 "unknown")) :=
  ⟨by decide,
    ⟨((claim6_fallback_policy scriptOver500 (.status 500 "unknown") (by decide)).2.1
        (by decide)).1,
      ((claim6_fallback_policy scriptOver500 (.status 500 "unknown") (by decide)).2.1
        (by decide)).2.1 (.status 500 "unknown") (by decide)⟩⟩

end Nntp
